import Mathlib

/-!
Verification of the JoinMarket message-channel layer
(`electrum/plugins/joinmarket/jmdaemon/message_channel.py`).

The Python module defines two classes:

* `MessageChannelCollection` (prefix `mcc_` below, or bare names where
  unambiguous): the router owning a fixed list of message channels, the
  per-counterparty pin map `active_channels`, the per-channel status map
  `mc_status` (0 = not started, 1 = started, 2 = failed/broken/inactive),
  the per-channel `nicks_seen` sets, and the startup-readiness ("welcome")
  aggregation state.

* `MessageChannel` (prefix `mc_`): the per-channel protocol dispatcher:
  public-message parsing (`on_pubmsg`), private-message phase 1
  (`on_privmsg`: syntactic checks and the asynchronous verification
  request) and phase 2 (`on_verified_privmsg`: decryption and semantic
  dispatch).

State is modelled explicitly: every Python method that mutates `self`
becomes a function `CollState → ... → CollState × ...`.  Business
callbacks (`on_order_seen`, `on_nick_leave`, ...) are modelled as emitted
`JMEvent`s, in the post-registration configuration in which the
collection wires each channel's triggers to itself
(`register_channel_callbacks` / `register_orderbookwatch_callbacks`):
a channel's `on_pubmsg_trigger` is the collection's `see_nick`, its
`on_privmsg_trigger` is the collection's `on_privmsg`, and its
`on_order_seen` is the collection's `on_order_seen_trigger`.
Python statements that can raise (`dict[key]`, `list[0]`, `message[0]`)
are embedded with `Except Unit` / explicit emptiness branches.
-/

namespace JMMC

/-- One message-channel instance, identified by `cid`; `hostid` is the
transport identifier used for anti-replay signature scoping. -/
structure MChan where
  cid : Nat
  hostid : String
deriving DecidableEq, Repr

/-- Association-list lookup (Python `d[k]` / `k in d`); `none` models
`KeyError` territory at call sites that branch on it. -/
def alGet {α β : Type} [DecidableEq α] (k : α) : List (α × β) → Option β
  | [] => none
  | (k', v) :: rest => if k = k' then some v else alGet k rest

/-- Association-list assignment (Python `d[k] = v`): replaces the binding
in place if present, else appends (Python dicts keep insertion order). -/
def alPut {α β : Type} [DecidableEq α] (k : α) (v : β) : List (α × β) → List (α × β)
  | [] => [(k, v)]
  | (k', v') :: rest => if k = k' then (k, v) :: rest else (k', v') :: alPut k v rest

/-- Association-list deletion (Python `del d[k]`). -/
def alDel {α β : Type} [DecidableEq α] (k : α) : List (α × β) → List (α × β)
  | [] => []
  | (k', v') :: rest => if k = k' then alDel k rest else (k', v') :: alDel k rest

/-- Python `set.add` on a set represented as a duplicate-free list. -/
def addNick (n : String) (l : List String) : List String :=
  if n ∈ l then l else n :: l

/-- Python `set.difference({n})`: remove every occurrence of `n`. -/
def removeNick (n : String) (l : List String) : List String :=
  l.filter (fun x => ¬ x = n)

/-- Python `s.split(sep)` on the character list of a string: splits on
every occurrence of `sep`, keeping empty fields (so the result is always
nonempty). -/
def splitCharAux (sep : Char) : List Char → List (List Char)
  | [] => [[]]
  | c :: rest =>
    match splitCharAux sep rest with
    | [] => []
    | g :: gs => if c = sep then [] :: g :: gs else (c :: g) :: gs

/-- Python `s.split(sep)` for a one-character separator `sep`. -/
def pySplit (sep : Char) (s : String) : List String :=
  (splitCharAux sep s.data).map String.mk

/-- Python `s[1:]`. -/
def strTail (s : String) : String := String.mk s.data.tail

/-- Modelled from the spec: the builtin `int()` used by `on_pubmsg` to
parse a cancel order id (an integer in decimal notation, optionally
negative); returns `none` on any non-numeric input (Python `ValueError`). -/
def pyParseNat (l : List Char) : Option Nat :=
  if l = [] then none
  else l.foldlM (fun acc c => if c.isDigit then some (acc * 10 + (c.toNat - 48)) else none) 0

/-- Modelled from the spec: signed integer parsing, see `pyParseNat`. -/
def pyToInt (s : String) : Option Int :=
  match s.data with
  | '-' :: rest => (pyParseNat rest).map (fun n => -(n : Int))
  | l => (pyParseNat l).map (fun n => (n : Int))

/-- External collaborators of the module, passed around explicitly:
the command lists and `COMMAND_PREFIX` imported from the package
`__init__`, and the proto-daemon crypto subsystem
(`get_crypto_box_from_nick`, `encrypt_encode`, `decode_decrypt`) and the
encoding validators (`hextobin`, `base64.b64decode`) used by
`on_privmsg`.  Modelled from the spec where the collaborator is outside
this file: a single reserved command-delimiter character `cmdChar`
(`COMMAND_PREFIX`), a session-key subsystem `boxFor` returning `none`
when no per-counterparty key exists, `decode_decrypt` returning `none`
on a decode error, and boolean encoding validators. -/
structure ProtoConfig where
  cmdChar : Char
  plaintext_commands : List String
  encrypted_commands : List String
  offername_list : List String
  fidelity_bond_cmd_list : List String
  boxFor : String → Option Nat
  encrypt_encode : String → Nat → String
  decode_decrypt : String → Nat → Option String
  validPub : String → Bool
  validSig : String → Bool
  b64 : String → String

/-- Business-callback invocations observed by the layer above. -/
inductive JMEvent
  | welcome
  | disconnected
  | nickLeave (nick : String)
  | orderSeen (counterparty oid ordertype minsize maxsize txfee cjfee : String)
  | orderCancel (nick : String) (oid : Int)
  | fidelityBondSeen (nick cmd proofmsg : String)
  | errorEvt (error : String)
  | pubkeyEvt (nick pk : String)
  | ioauthEvt (nick : String) (utxo_list : List String)
      (auth_pub cj_addr change_addr btc_sig : String)
  | sigEvt (nick sg : String)
deriving DecidableEq, Repr

/-- An outgoing low-level `privmsg` handed to a channel implementation. -/
structure Send where
  mc : MChan
  nick : String
  cmd : String
  msg : String
deriving DecidableEq, Repr

/-- An asynchronous signing request issued by `prepare_privmsg`
(`proto_daemon.request_signed_message`): `payload` is `msg_to_be_signed`. -/
structure SignRequest where
  nick : String
  cmd : String
  message : String
  payload : String
  hostid : String
deriving DecidableEq, Repr

/-- An asynchronous verification request issued by phase-1 `on_privmsg`
(`proto_daemon.request_signature_verify`). -/
structure VerifyRequest where
  payload : String
  fullmsg : String
  sig : String
  pub : String
  nick : String
  hostid : String
deriving DecidableEq, Repr

/-- The mutable state of a `MessageChannelCollection`.
`announce_scheduled` models `on_welcome_announce_id is not None` (the
field is never reset in the source); `timer_pending` models the
scheduler-side state of the 60-second `callLater` handle: it is set on
scheduling, cleared by `cancel()` and by delivery. -/
structure CollState where
  mchannels : List MChan
  active_channels : List (String × MChan)
  mc_status : List (MChan × Nat)
  nicks_seen : List (MChan × List String)
  welcomed : Bool
  give_up : Bool
  announce_scheduled : Bool
  timer_pending : Bool
deriving DecidableEq, Repr

/-- `MessageChannelCollection.__init__` for a fixed channel list. -/
def initColl (chans : List MChan) : CollState :=
  { mchannels := chans
    active_channels := []
    mc_status := chans.map (fun c => (c, 0))
    nicks_seen := chans.map (fun c => (c, []))
    welcomed := false
    give_up := false
    announce_scheduled := false
    timer_pending := false }

/-- `self.mc_status[mc]` (defaulting where Python would `KeyError`;
every source read is on a constructor-initialized key). -/
def statusOf (s : CollState) (mc : MChan) : Nat := (alGet mc s.mc_status).getD 0

/-- `available_channels`: channels whose status is 1. -/
def available_channels (s : CollState) : List MChan :=
  s.mchannels.filter (fun x => statusOf s x = 1)

/-- `unavailable_channels`: channels whose status is not 1. -/
def unavailable_channels (s : CollState) : List MChan :=
  s.mchannels.filter (fun x => ¬ statusOf s x = 1)

/-- `self.nicks_seen[mc]` (same keying discipline as `statusOf`). -/
def seenOf (s : CollState) (mc : MChan) : List String := (alGet mc s.nicks_seen).getD []

/-- `see_nick`: `self.nicks_seen[mc].add(nick)`. -/
def see_nick (s : CollState) (nick : String) (mc : MChan) : CollState :=
  { s with nicks_seen := alPut mc (addNick nick (seenOf s mc)) s.nicks_seen }

/-- `unsee_nick`: `self.nicks_seen[mc] = self.nicks_seen[mc].difference({nick})`. -/
def unsee_nick (s : CollState) (nick : String) (mc : MChan) : CollState :=
  { s with nicks_seen := alPut mc (removeNick nick (seenOf s mc)) s.nicks_seen }

/-- The inner re-pin of `flush_nicks`: move one peer to the first
available channel that has seen it, if any. -/
def flush_repin (st : CollState) (peer : String) : CollState :=
  match (available_channels st).find? (fun mc2 => decide (peer ∈ seenOf st mc2)) with
  | some mc2 => { st with active_channels := alPut peer mc2 st.active_channels }
  | none => st

/-- One iteration of the `flush_nicks` outer loop, for one unavailable
channel `mc`: wipe its seen-set, re-pin each peer pinned to `mc` to the
first available channel that has seen it, then drop every remaining
pin to `mc`. -/
def flush_one (s : CollState) (mc : MChan) : CollState :=
  let s1 := { s with nicks_seen := alPut mc [] s.nicks_seen }
  let peers := (s1.active_channels.filter (fun p => p.2 = mc)).map (fun p => p.1)
  let s2 := peers.foldl flush_repin s1
  { s2 with active_channels := s2.active_channels.filter (fun p => ¬ p.2 = mc) }

/-- `flush_nicks`: run `flush_one` over every currently unavailable channel. -/
def flush_nicks (s : CollState) : CollState :=
  (unavailable_channels s).foldl flush_one s

/-- `on_connect_trigger`: mark the channel as (re)connected. -/
def on_connect_trigger (s : CollState) (mc : MChan) : CollState :=
  { s with mc_status := alPut mc 1 s.mc_status }

/-- `on_disconnect_trigger`: mark the channel broken, flush, and fire
`on_disconnect` if no channel is left connected. -/
def on_disconnect_trigger (s : CollState) (mc : MChan) : CollState × List JMEvent :=
  let s := { s with mc_status := alPut mc 2 s.mc_status }
  let s := flush_nicks s
  if s.mc_status.all (fun p => ¬ p.2 = 1) then (s, [.disconnected])
  else (s, [])

/-- `on_welcome_setup_finished`: fire `on_welcome` and set `welcomed`
(note the source does not re-check `welcomed` here). -/
def on_welcome_setup_finished (s : CollState) : CollState × List JMEvent :=
  ({ s with welcomed := true }, [.welcome])

/-- `on_welcome_trigger`: mark the channel started; if not yet welcomed,
either schedule the 60-second grace timer (when some channel is still
status 0 and no timer was ever scheduled) or cancel any pending timer
and finish the welcome setup (when no channel is status 0). -/
def on_welcome_trigger (s : CollState) (mc : MChan) : CollState × List JMEvent :=
  let s1 := { s with mc_status := alPut mc 1 s.mc_status }
  if s1.welcomed then (s1, [])
  else if s1.mc_status.any (fun p => p.2 = 0) then
    if ¬ s1.announce_scheduled then
      ({ s1 with announce_scheduled := true, timer_pending := true }, [])
    else (s1, [])
  else
    on_welcome_setup_finished
      (if s1.announce_scheduled then { s1 with timer_pending := false } else s1)

/-- Delivery of the 60-second `callLater` by the scheduler: runs
`on_welcome_setup_finished` if the handle is still pending (modelled
from the spec: `scheduleAfter` returns a cancellable handle; a cancelled
or already-delivered handle does not fire). -/
def timer_fire (s : CollState) : CollState × List JMEvent :=
  if s.timer_pending then
    on_welcome_setup_finished { s with timer_pending := false }
  else (s, [])

/-- The pinned-to-this-channel block of `on_nick_leave_trigger`: drop
the pin, then silently re-pin to the first other available channel that
has seen the nick, or fire `on_nick_leave` when there is none (also when
there is no other available channel at all). -/
def nick_leave_repin (s1 : CollState) (nick : String) (mc : MChan) :
    CollState × List JMEvent :=
  let s2 := { s1 with active_channels := alDel nick s1.active_channels }
  let other_channels := (available_channels s2).filter (fun x => ¬ x = mc)
  if other_channels = [] then (s2, [.nickLeave nick])
  else
    match other_channels.find? (fun oc => decide (nick ∈ seenOf s2 oc)) with
    | some oc => ({ s2 with active_channels := alPut nick oc s2.active_channels }, [])
    | none => (s2, [.nickLeave nick])

/-- `on_nick_leave_trigger`: unsee the nick on that channel; then do
nothing if it is pinned elsewhere, re-pin silently if possible when it
was pinned here, and otherwise fire `on_nick_leave`. -/
def on_nick_leave_trigger (s : CollState) (nick : String) (mc : MChan) :
    CollState × List JMEvent :=
  let s1 := unsee_nick s nick mc
  match alGet nick s1.active_channels with
  | none => (s1, [.nickLeave nick])
  | some pinned =>
    if pinned = mc then nick_leave_repin s1 nick mc
    else (s1, [])

/-- `on_order_seen_trigger`: record the counterparty as seen on `mc`,
pin it to `mc`, and pass the order to the business callback. -/
def on_order_seen_trigger (s : CollState) (mc : MChan)
    (counterparty oid ordertype minsize maxsize txfee cjfee : String) :
    CollState × List JMEvent :=
  let s := { s with nicks_seen := alPut mc (addNick counterparty (seenOf s mc)) s.nicks_seen }
  let s := { s with active_channels := alPut counterparty mc s.active_channels }
  (s, [.orderSeen counterparty oid ordertype minsize maxsize txfee cjfee])

/-- `MessageChannelCollection.on_privmsg` (the `on_privmsg_trigger`
wired into each channel): record the nick as seen, but only when the
channel is currently available. -/
def mcc_on_privmsg (s : CollState) (nick : String) (mchan : MChan) : CollState :=
  if mchan ∈ available_channels s then see_nick s nick mchan
  else s

/-- `get_encryption_box`: plaintext commands need no box; every other
command requires the per-counterparty session key. -/
def get_encryption_box (cfg : ProtoConfig) (cmd nick : String) : Option Nat × Bool :=
  if cmd ∈ cfg.plaintext_commands then (none, false)
  else (cfg.boxFor nick, true)

/-- The encryption step of `prepare_privmsg`: encrypt when the command
requires it, dropping the message (`none`) when no box exists. -/
def encrypt_step (cfg : ProtoConfig) (nick cmd m : String) : Option String :=
  let be := get_encryption_box cfg cmd nick
  if be.2 then
    match be.1 with
    | none => none
    | some b => some (cfg.encrypt_encode m b)
  else some m

/-- The hostid resolution of `prepare_privmsg`: the explicit channel's
hostid if one was passed, else the pinned channel's, else `none` (the
"cannot find on any message channel" drop). -/
def resolve_hostid (s : CollState) (nick : String) : Option MChan → Option String
  | none => (alGet nick s.active_channels).map (fun c => c.hostid)
  | some mc => some mc.hostid

/-- The body of `prepare_privmsg` (inside the `check_privmsg` decorator):
optionally encrypt, resolve the hostid (explicit channel or pin), and
issue the signing request with `msg_to_be_signed = message + hostid`. -/
def prepare_privmsg_inner (cfg : ProtoConfig) (s : CollState)
    (nick cmd message : String) (mco : Option MChan) : Option SignRequest :=
  match encrypt_step cfg nick cmd message with
  | none => none
  | some m =>
    match resolve_hostid s nick mco with
    | none => none
    | some h => some ⟨nick, cmd, m, m ++ h, h⟩

/-- The `check_privmsg` decorator: run the wrapped operation if the
counterparty is pinned; otherwise scan the available channels' seen-sets,
pin the first that has seen it and run the operation; otherwise log and
drop. -/
def check_privmsg {α : Type} (s : CollState) (cp : String)
    (func : CollState → CollState × Option α) : CollState × Option α :=
  match alGet cp s.active_channels with
  | some _ => func s
  | none =>
    match (available_channels s).find? (fun mc => decide (cp ∈ seenOf s mc)) with
    | some mc => func { s with active_channels := alPut cp mc s.active_channels }
    | none => (s, none)

/-- `prepare_privmsg` with its decorator. -/
def prepare_privmsg (cfg : ProtoConfig) (s : CollState)
    (nick cmd message : String) (mco : Option MChan) : CollState × Option SignRequest :=
  check_privmsg s nick (fun s' => (s', prepare_privmsg_inner cfg s' nick cmd message mco))

/-- `send_error` (decorated): a `prepare_privmsg` of an "error" command. -/
def send_error (cfg : ProtoConfig) (s : CollState) (nick errormsg : String) :
    CollState × Option SignRequest :=
  check_privmsg s nick (fun s' => prepare_privmsg cfg s' nick "error" errormsg none)

/-- `push_tx` (decorated): a `prepare_privmsg` of a "push" command with
the base64-encoded transaction. -/
def push_tx (cfg : ProtoConfig) (s : CollState) (nick tx : String) :
    CollState × Option SignRequest :=
  check_privmsg s nick (fun s' => prepare_privmsg cfg s' nick "push" (cfg.b64 tx) none)

/-- `MessageChannelCollection.privmsg` (not decorated): send on the
explicitly given channel (with the hostid-string second chance), else on
the pinned channel, else log and drop. -/
def mcc_privmsg (s : CollState) (nick cmd msg : String) :
    Option (Sum MChan String) → Option Send
  | some (Sum.inl c) =>
    if c ∈ available_channels s then some ⟨c, nick, cmd, msg⟩
    else
      -- a channel object never equals any hostid string, so
      -- matching_channels is empty and the error branch returns
      none
  | some (Sum.inr h) =>
    match (available_channels s).filter (fun x => h = x.hostid) with
    | [c] => some ⟨c, nick, cmd, msg⟩
    | _ => none
  | none =>
    match alGet nick s.active_channels with
    | some c => some ⟨c, nick, cmd, msg⟩
    | none => none

/-- `fill_orders`: for each available channel, filter the order dict to
the nicks pinned to it (Python raises `KeyError` for a nick absent from
`active_channels`, modelled by `Except.error`), then send a "fill"
privmsg to each. -/
def mcc_fill_orders (s : CollState) (nick_order_dict : List (String × String))
    (cj_amount taker_pubkey commitment : String) : Except Unit (List Send) :=
  (available_channels s).foldlM (fun acc mc => do
    let filtered ← nick_order_dict.foldlM
      (fun (facc : List (String × String)) kv => do
        match alGet kv.1 s.active_channels with
        | none => throw ()
        | some c => pure (if c = mc then facc ++ [kv] else facc)) []
    pure (acc ++ filtered.map (fun kv =>
      Send.mk mc kv.1 "fill"
        (kv.2 ++ " " ++ cj_amount ++ " " ++ taker_pubkey ++ " " ++ commitment)))) []

/-- The grouping loop of `send_tx` (`tx_nick_sets`), under the guard
that every nick is pinned. -/
def tx_group (s : CollState) (nicks : List String) : List (MChan × List String) :=
  nicks.foldl (fun acc n =>
    match alGet n s.active_channels with
    | some c =>
      match alGet c acc with
      | some nl => alPut c (nl ++ [n]) acc
      | none => acc ++ [(c, [n])]
    | none => acc) []

/-- `prepare_send_tx`: one signing request per nick on the group's channel. -/
def prepare_send_tx (cfg : ProtoConfig) (s : CollState) (mc : MChan)
    (nl : List String) (txb64 : String) : CollState × List SignRequest :=
  nl.foldl (fun (acc : CollState × List SignRequest) n =>
    let r := prepare_privmsg cfg acc.1 n "tx" txb64 (some mc)
    (r.1, acc.2 ++ r.2.toList)) (s, [])

/-- `send_tx`: if any nick in the list is not pinned, log and return with
nothing sent (the source returns from inside the grouping loop);
otherwise group nicks by pinned channel and prepare each send. -/
def mcc_send_tx (cfg : ProtoConfig) (s : CollState) (nick_list : List String)
    (tx : String) : CollState × List SignRequest :=
  if nick_list.all (fun n => (alGet n s.active_channels).isSome) then
    (tx_group s nick_list).foldl (fun acc p =>
      let r := prepare_send_tx cfg acc.1 p.1 p.2 (cfg.b64 tx)
      (r.1, acc.2 ++ r.2)) (s, [])
  else (s, [])

/-- `MessageChannel.check_for_orders`: if the first chunk is an offer
keyword, the sub-command is claimed (`true`); the order-seen callback —
wired to `on_order_seen_trigger` — fires only when all five positional
fields are present (a missing field raises `IndexError`, which is caught
and logged, and the `finally` block still returns `True`). -/
def check_for_orders (s : CollState) (cfg : ProtoConfig) (mc : MChan)
    (nick : String) (chunks : List String) : Bool × CollState × List JMEvent :=
  match chunks with
  | [] => (false, s, [])
  | c0 :: rest =>
    if c0 ∈ cfg.offername_list then
      match rest with
      | oid :: minsize :: maxsize :: txfee :: cjfee :: _ =>
        let r := on_order_seen_trigger s mc nick oid c0 minsize maxsize txfee cjfee
        (true, r.1, r.2)
      | _ => (true, s, [])
    else (false, s, [])

/-- `MessageChannel.check_for_fidelity_bond`: analogous to
`check_for_orders` for the fidelity-bond command list (no collection
state is touched; the proof message is passed straight through). -/
def check_for_fidelity_bond (cfg : ProtoConfig) (nick : String)
    (chunks : List String) : Bool × List JMEvent :=
  match chunks with
  | [] => (false, [])
  | c0 :: rest =>
    if c0 ∈ cfg.fidelity_bond_cmd_list then
      match rest with
      | proofmsg :: _ => (true, [.fidelityBondSeen nick c0 proofmsg])
      | [] => (true, [])
    else (false, [])

/-- The taker-command dispatch of phase-2 `on_verified_privmsg`
(`error` / `pubkey` / `ioauth` / `sig`); a missing positional field
(`IndexError`) is caught by the surrounding `try` and skips only this
sub-command, which here becomes an empty event list. -/
def dispatchTaker (nick : String) : List String → List JMEvent
  | "error" :: rest => [.errorEvt (String.intercalate " " rest)]
  | "pubkey" :: pk :: _ => [.pubkeyEvt nick pk]
  | "ioauth" :: a :: b :: c :: d :: e :: _ =>
    [.ioauthEvt nick (pySplit ',' a) b c d e]
  | "sig" :: sg :: _ => [.sigEvt nick sg]
  | _ => []

/-- One iteration of the `on_pubmsg` sub-command loop.  The returned
`Bool` is `false` when the source `return`s out of the whole handler
(a `ValueError`/`IndexError` while parsing a `!cancel` order id). -/
def pubmsg_command (s : CollState) (cfg : ProtoConfig) (mc : MChan)
    (nick command : String) : CollState × List JMEvent × Bool :=
  let chunks := pySplit ' ' command
  let r := check_for_orders s cfg mc nick chunks
  if r.1 then (r.2.1, r.2.2, true)
  else
    match chunks with
    | [] => (s, [], true)
    | c0 :: rest =>
      if c0 = "cancel" then
        match rest with
        | oidStr :: _ =>
          match pyToInt oidStr with
          | some oid => (s, [.orderCancel nick oid], true)
          | none => (s, [], false)
        | [] => (s, [], false)
      else (s, [], true)

/-- The `on_pubmsg` sub-command loop. -/
def pubmsg_loop (s : CollState) (cfg : ProtoConfig) (mc : MChan)
    (nick : String) : List String → CollState × List JMEvent
  | [] => (s, [])
  | c :: rest =>
    let r := pubmsg_command s cfg mc nick c
    if r.2.2 then
      let r' := pubmsg_loop r.1 cfg mc nick rest
      (r'.1, r.2.1 ++ r'.2)
    else (r.1, r.2.1)

/-- `MessageChannel.on_pubmsg` in the integrated configuration
(`on_pubmsg_trigger` = the collection's `see_nick`): mark the nick seen
unconditionally, then reject non-command messages, apply the duplicate
`orderbook` flood guard, and process the sub-commands in order.
`message[0]` on an empty message raises `IndexError` (`Except.error`),
after the sighting has already been recorded. -/
def mc_on_pubmsg (s : CollState) (cfg : ProtoConfig) (mc : MChan)
    (nick msg : String) : CollState × Except Unit (List JMEvent) :=
  let s := see_nick s nick mc
  match msg.data with
  | [] => (s, .error ())
  | c0 :: rest =>
    if ¬ c0 = cfg.cmdChar then (s, .ok [])
    else
      let cmds := (splitCharAux cfg.cmdChar rest).map String.mk
      if 1 < cmds.countP (fun c => decide (c = "orderbook")) then (s, .ok [])
      else
        let r := pubmsg_loop s cfg mc nick cmds
        (r.1, .ok r.2)

/-- `MessageChannel.on_privmsg` (phase 1, syntactic): length and
command-character checks, command-name lookup, extraction of the
trailing `pub sig` tokens (a one-token tail makes the tuple unpacking
raise, which is caught and rejected), the nonempty-body check, the cheap
encoding validation, and finally the asynchronous verification request
with payload `rawmessage + hostid`.  The Python method performs no state
write whatsoever: its only effect is the returned request (or none). -/
def mc_on_privmsg (cfg : ProtoConfig) (mc : MChan) (nick msg : String) :
    Option VerifyRequest :=
  if msg.data.length < 2 then none
  else if ¬ msg.data.head? = some cfg.cmdChar then none
  else
    let tokens := pySplit ' ' (strTail msg)
    let cmd_string := tokens.headD ""
    if ¬ cmd_string ∈ cfg.plaintext_commands ++ cfg.encrypted_commands then none
    else
      match tokens.reverse with
      | sg :: pb :: _ =>
        let rawmessage := String.intercalate " " ((tokens.drop 1).dropLast.dropLast)
        if rawmessage.data.length = 0 then none
        else if cfg.validPub pb && cfg.validSig sg then
          some ⟨rawmessage ++ mc.hostid, msg, sg, pb, nick, mc.hostid⟩
        else none
      | _ => none

/-- The decrypt step of one phase-2 sub-command: chunks whose command
requires encryption are rebuilt from the decrypted payload; `none`
means the source `return`s out of the whole handler (missing box or
decryption failure). -/
def phase2_decrypt (cfg : ProtoConfig) (nick : String) (chunks : List String) :
    Option (List String) :=
  match chunks with
  | [] => some []
  | c0 :: rest =>
    if c0 ∈ cfg.encrypted_commands then
      let be := get_encryption_box cfg c0 nick
      if be.2 then
        match be.1 with
        | none => none
        | some box =>
          match cfg.decode_decrypt (String.join rest) box with
          | none => none
          | some dec => some (c0 :: pySplit ' ' dec)
      else some (c0 :: rest)
    else some (c0 :: rest)

/-- Dispatch of one (decrypted) phase-2 sub-command: order, fidelity
bond, or taker command; parse errors inside the dispatch skip only this
sub-command. -/
def phase2_dispatch (s : CollState) (cfg : ProtoConfig) (mc : MChan)
    (nick : String) (chunks : List String) : CollState × List JMEvent :=
  let r := check_for_orders s cfg mc nick chunks
  if r.1 then (r.2.1, r.2.2)
  else
    let rf := check_for_fidelity_bond cfg nick chunks
    if rf.1 then (s, rf.2)
    else (s, dispatchTaker nick chunks)

/-- One phase-2 sub-command: decrypt then dispatch; `none` aborts the
whole message. -/
def phase2_command (s : CollState) (cfg : ProtoConfig) (mc : MChan)
    (nick command : String) : Option (CollState × List JMEvent) :=
  match phase2_decrypt cfg nick (pySplit ' ' command) with
  | none => none
  | some chunks => some (phase2_dispatch s cfg mc nick chunks)

/-- The phase-2 sub-command loop: a `none` from `phase2_command`
(missing session key or decryption failure) returns out of the handler,
dropping every remaining sub-command. -/
def phase2_loop (s : CollState) (cfg : ProtoConfig) (mc : MChan)
    (nick : String) : List String → CollState × List JMEvent
  | [] => (s, [])
  | c :: rest =>
    match phase2_command s cfg mc nick c with
    | none => (s, [])
    | some r =>
      let r' := phase2_loop r.1 cfg mc nick rest
      (r'.1, r.2 ++ r'.2)

/-- `MessageChannel.on_verified_privmsg` (phase 2) in the integrated
configuration (`on_privmsg_trigger` = the collection's `on_privmsg`):
record the authenticated sighting, strip the command character and the
trailing `pub sig` tokens, split on the command character, and process
each sub-command. -/
def mc_on_verified_privmsg (s : CollState) (cfg : ProtoConfig) (mc : MChan)
    (nick msg : String) : CollState × List JMEvent :=
  let s := mcc_on_privmsg s nick mc
  let body := String.intercalate " " (((pySplit ' ' (strTail msg)).dropLast).dropLast)
  phase2_loop s cfg mc nick (pySplit cfg.cmdChar body)

/-- `MessageChannelCollection.on_verified_privmsg`: look the channel up
by hostid; when no channel matches, the source logs a warning and then
evaluates `matched_channels[0]`, raising `IndexError`
(`Except.error`); otherwise it processes on the first match. -/
def mcc_on_verified_privmsg (s : CollState) (cfg : ProtoConfig)
    (nick msg hostid : String) : Except Unit (CollState × List JMEvent) :=
  match s.mchannels.filter (fun x => hostid = x.hostid) with
  | [] => .error ()
  | mc :: _ => .ok (mc_on_verified_privmsg s cfg mc nick msg)

/-- The routed-send resolution exactly as the specification words it
(for comparing against the source's `check_privmsg` / `privmsg`): if the
counterparty has a pinned **currently-available** channel, send there;
otherwise scan the available channels' seen-sets and re-pin on the first
match; otherwise drop. -/
def specRoutedSend (s : CollState) (cp : String) : CollState × Option MChan :=
  let scan : CollState × Option MChan :=
    match (available_channels s).find? (fun mc => decide (cp ∈ seenOf s mc)) with
    | some mc => ({ s with active_channels := alPut cp mc s.active_channels }, some mc)
    | none => (s, none)
  match alGet cp s.active_channels with
  | some c => if c ∈ available_channels s then (s, some c) else scan
  | none => scan

/-- The trigger events of the readiness state machine (claim C2):
connect / disconnect / welcome per channel, plus delivery of the
60-second grace timer by the scheduler. -/
inductive TrigEvent
  | connect (mc : MChan)
  | disconnect (mc : MChan)
  | welcome (mc : MChan)
  | timer
deriving DecidableEq, Repr

/-- One trigger delivered to the collection. -/
def trigStep (s : CollState) : TrigEvent → CollState × List JMEvent
  | .connect mc => (on_connect_trigger s mc, [])
  | .disconnect mc => on_disconnect_trigger s mc
  | .welcome mc => on_welcome_trigger s mc
  | .timer => timer_fire s

/-- A sequence of triggers, with the emitted events concatenated. -/
def trigRun (s : CollState) : List TrigEvent → CollState × List JMEvent
  | [] => (s, [])
  | e :: es =>
    let r := trigStep s e
    let r' := trigRun r.1 es
    (r'.1, r.2 ++ r'.2)

/-- Number of `on_welcome` firings in an event trace. -/
def welcomeCount (evs : List JMEvent) : Nat :=
  evs.countP (fun e => decide (e = JMEvent.welcome))

/-- Number of `on_nick_leave` firings in an event trace. -/
def nickLeaveCount (evs : List JMEvent) : Nat :=
  evs.countP (fun e => match e with | JMEvent.nickLeave _ => true | _ => false)

/-- The pin-map invariant of claim C6: no pinned channel is currently
marked broken (status 2). -/
def pinInv (s : CollState) : Prop :=
  ∀ p ∈ s.active_channels, ¬ statusOf s p.2 = 2

/-- Well-formedness used alongside `pinInv`: every pinned channel is one
of the collection's channels (pins are only ever created for channels
handed to the constructor). -/
def pinWF (s : CollState) : Prop :=
  ∀ p ∈ s.active_channels, p.2 ∈ s.mchannels

/-- Two concrete channels used in witnesses and counterexamples. -/
def chA : MChan := ⟨0, "hostA"⟩

/-- Second concrete channel. -/
def chB : MChan := ⟨1, "hostB"⟩

/-- A concrete external-collaborator configuration: command character
`!`, one plaintext command (`error`) together with the unencrypted
protocol commands used in tests, one encrypted command (`enc`), one
offer keyword (`reloffer`), no session keys, and all-accepting
validators. -/
def cfgEx : ProtoConfig :=
  { cmdChar := '!'
    plaintext_commands := ["error", "tx", "push", "fill", "orderbook", "cancel", "reloffer"]
    encrypted_commands := ["enc"]
    offername_list := ["reloffer"]
    fidelity_bond_cmd_list := ["tbond"]
    boxFor := fun _ => none
    encrypt_encode := fun m _ => m
    decode_decrypt := fun _ _ => none
    validPub := fun _ => true
    validSig := fun _ => true
    b64 := fun t => t }

/-- Scheduler/welcome bookkeeping soundness: a pending timer implies the
welcome has not yet fired and a handle was recorded.  This holds at
construction and is preserved by every trigger. -/
def Good (s : CollState) : Prop :=
  s.timer_pending = true → (s.welcomed = false ∧ s.announce_scheduled = true)

/-- Concrete state for claim C1: one connected channel, no pins. -/
def sC1 : CollState := on_connect_trigger (initColl [chA]) chA

/-- Concrete state for claims C3/C4/C5: two connected channels, no pins,
"bob" seen on `chB` only. -/
def sC3 : CollState :=
  { initColl [chA, chB] with
    mc_status := [(chA, 1), (chB, 1)]
    nicks_seen := [(chA, []), (chB, ["bob"])] }

/-- `sC3` with "bob" pinned to `chA`. -/
def sPin : CollState := { sC3 with active_channels := [("bob", chA)] }

/-- A one-channel state whose 60-second welcome timer is pending. -/
def sTimer : CollState :=
  { initColl [chA] with announce_scheduled := true, timer_pending := true }

/-- The intermediate state of `on_nick_leave_trigger` after the nick is
unseen and its pin deleted (observable used to state claim C8). -/
def nlDel (s : CollState) (nick : String) (mc : MChan) : CollState :=
  { unsee_nick s nick mc with
    active_channels := alDel nick (unsee_nick s nick mc).active_channels }

/-- The replacement-channel search of `on_nick_leave_trigger`
(observable used to state claim C8): first other available channel whose
seen-set contains the nick. -/
def nlFind (s : CollState) (nick : String) (mc : MChan) : Option MChan :=
  ((available_channels (nlDel s nick mc)).filter (fun x => ¬ x = mc)).find?
    (fun oc => decide (nick ∈ seenOf (nlDel s nick mc) oc))

/-- The inbound private-message phase-1 step as the collection observes
it: the Python `MessageChannel.on_privmsg` contains no state write at
all (its only effect is the deferred `request_signature_verify` call),
so the integrated step pairs the unchanged state with the request. -/
def priv_phase1 (s : CollState) (cfg : ProtoConfig) (mc : MChan)
    (nick msg : String) : CollState × Option VerifyRequest :=
  (s, mc_on_privmsg cfg mc nick msg)

instance (s : CollState) : Decidable (pinInv s) := by
  unfold pinInv
  infer_instance

instance (s : CollState) : Decidable (pinWF s) := by
  unfold pinWF
  infer_instance

end JMMC

-- ───────────────────────── theorems ─────────────────────────

namespace JMMC

theorem alGet_alPut {α β : Type} [DecidableEq α] (k k' : α) (v : β) (l : List (α × β)) :
    alGet k (alPut k' v l) = if k = k' then some v else alGet k l := by
  induction l with
  | nil =>
    by_cases h : k = k' <;> simp [alPut, alGet, h]
  | cons p rest ih =>
    obtain ⟨a, b⟩ := p
    simp only [alPut]
    by_cases h1 : k' = a
    · subst h1
      by_cases h2 : k = k' <;> simp [alGet, h2]
    · simp only [if_neg h1, alGet]
      by_cases h2 : k = a
      · have h3 : ¬ k = k' := by
          intro hk; exact h1 (hk ▸ h2)
        have h4 : ¬ a = k' := fun hh => h1 hh.symm
        simp [h2, h3, h4]
      · simp [h2, ih]

theorem mem_alPut {α β : Type} [DecidableEq α] {p : α × β} {k : α} {v : β}
    {l : List (α × β)} (h : p ∈ alPut k v l) : p = (k, v) ∨ p ∈ l := by
  induction l with
  | nil => simpa [alPut] using h
  | cons q rest ih =>
    obtain ⟨a, b⟩ := q
    by_cases h1 : k = a
    · simp only [alPut, if_pos h1] at h
      rcases List.mem_cons.mp h with h2 | h2
      · exact Or.inl h2
      · exact Or.inr (List.mem_cons_of_mem _ h2)
    · simp only [alPut, if_neg h1] at h
      rcases List.mem_cons.mp h with h2 | h2
      · exact Or.inr (h2 ▸ List.mem_cons_self _ _)
      · rcases ih h2 with h3 | h3
        · exact Or.inl h3
        · exact Or.inr (List.mem_cons_of_mem _ h3)

theorem mem_alDel {α β : Type} [DecidableEq α] {p : α × β} {k : α}
    {l : List (α × β)} (h : p ∈ alDel k l) : p ∈ l := by
  induction l with
  | nil => simp [alDel] at h
  | cons q rest ih =>
    obtain ⟨a, b⟩ := q
    by_cases h1 : k = a
    · simp only [alDel, if_pos h1] at h
      exact List.mem_cons_of_mem _ (ih h)
    · simp only [alDel, if_neg h1] at h
      rcases List.mem_cons.mp h with h2 | h2
      · exact h2 ▸ List.mem_cons_self _ _
      · exact List.mem_cons_of_mem _ (ih h2)

theorem alGet_alDel_self {α β : Type} [DecidableEq α] (k : α) (l : List (α × β)) :
    alGet k (alDel k l) = none := by
  induction l with
  | nil => simp [alDel, alGet]
  | cons q rest ih =>
    obtain ⟨a, b⟩ := q
    by_cases h1 : k = a
    · simpa [alDel, if_pos h1] using ih
    · simp [alDel, if_neg h1, alGet, h1, ih]

theorem mem_addNick (n : String) (l : List String) : n ∈ addNick n l := by
  unfold addNick
  by_cases h : n ∈ l <;> simp [h]

theorem mem_addNick_of_mem {x : String} {l : List String} (n : String)
    (h : x ∈ l) : x ∈ addNick n l := by
  unfold addNick
  by_cases h2 : n ∈ l <;> simp [h2, h]

theorem flush_repin_frame (st : CollState) (p : String) :
    (flush_repin st p).mc_status = st.mc_status ∧
    (flush_repin st p).mchannels = st.mchannels ∧
    (flush_repin st p).nicks_seen = st.nicks_seen ∧
    (flush_repin st p).welcomed = st.welcomed ∧
    (flush_repin st p).timer_pending = st.timer_pending ∧
    (flush_repin st p).announce_scheduled = st.announce_scheduled := by
  unfold flush_repin
  cases (available_channels st).find? (fun mc2 => decide (p ∈ seenOf st mc2)) <;> simp

theorem flush_repin_foldl_frame (l : List String) (st : CollState) :
    ((l.foldl flush_repin st).mc_status = st.mc_status ∧
     (l.foldl flush_repin st).mchannels = st.mchannels ∧
     (l.foldl flush_repin st).nicks_seen = st.nicks_seen ∧
     (l.foldl flush_repin st).welcomed = st.welcomed ∧
     (l.foldl flush_repin st).timer_pending = st.timer_pending ∧
     (l.foldl flush_repin st).announce_scheduled = st.announce_scheduled) := by
  induction l generalizing st with
  | nil => simp
  | cons p rest ih =>
    simp only [List.foldl_cons]
    have h := flush_repin_frame st p
    have h2 := ih (flush_repin st p)
    exact ⟨h2.1.trans h.1, h2.2.1.trans h.2.1, h2.2.2.1.trans h.2.2.1,
      h2.2.2.2.1.trans h.2.2.2.1, h2.2.2.2.2.1.trans h.2.2.2.2.1,
      h2.2.2.2.2.2.trans h.2.2.2.2.2⟩

theorem flush_one_frame (s : CollState) (mc : MChan) :
    (flush_one s mc).mc_status = s.mc_status ∧
    (flush_one s mc).mchannels = s.mchannels ∧
    (flush_one s mc).welcomed = s.welcomed ∧
    (flush_one s mc).timer_pending = s.timer_pending ∧
    (flush_one s mc).announce_scheduled = s.announce_scheduled := by
  unfold flush_one
  have h := flush_repin_foldl_frame
    (((({ s with nicks_seen := alPut mc [] s.nicks_seen } : CollState)).active_channels.filter
      (fun p => p.2 = mc)).map (fun p => p.1))
    ({ s with nicks_seen := alPut mc [] s.nicks_seen })
  exact ⟨h.1, h.2.1, h.2.2.2.1, h.2.2.2.2.1, h.2.2.2.2.2⟩

theorem flush_nicks_frame (s : CollState) :
    (flush_nicks s).mc_status = s.mc_status ∧
    (flush_nicks s).mchannels = s.mchannels ∧
    (flush_nicks s).welcomed = s.welcomed ∧
    (flush_nicks s).timer_pending = s.timer_pending ∧
    (flush_nicks s).announce_scheduled = s.announce_scheduled := by
  unfold flush_nicks
  generalize unavailable_channels s = l
  induction l generalizing s with
  | nil => simp
  | cons mc rest ih =>
    simp only [List.foldl_cons]
    have h := flush_one_frame s mc
    have h2 := ih (flush_one s mc)
    exact ⟨h2.1.trans h.1, h2.2.1.trans h.2.1, h2.2.2.1.trans h.2.2.1,
      h2.2.2.2.1.trans h.2.2.2.1, h2.2.2.2.2.trans h.2.2.2.2⟩

theorem statusOf_congr {s s' : CollState} (h : s'.mc_status = s.mc_status)
    (mc : MChan) : statusOf s' mc = statusOf s mc := by
  unfold statusOf
  rw [h]

theorem available_congr {s s' : CollState} (hs : s'.mc_status = s.mc_status)
    (hm : s'.mchannels = s.mchannels) : available_channels s' = available_channels s := by
  unfold available_channels
  rw [hm]
  apply List.filter_congr
  intro x _
  rw [statusOf_congr hs]

theorem Good_of_fields {s s' : CollState} (h1 : s'.welcomed = s.welcomed)
    (h2 : s'.timer_pending = s.timer_pending)
    (h3 : s'.announce_scheduled = s.announce_scheduled) (hg : Good s) : Good s' := by
  intro hp
  rw [h2] at hp
  exact ⟨h1.trans (hg hp).1, h3.trans (hg hp).2⟩

theorem welcomeCount_append (a b : List JMEvent) :
    welcomeCount (a ++ b) = welcomeCount a + welcomeCount b := by
  unfold welcomeCount
  exact List.countP_append _ _ _

theorem trigStep_welcome (s : CollState) (e : TrigEvent) (hg : Good s) :
    Good (trigStep s e).1 ∧
    (if (trigStep s e).1.welcomed then 1 else 0) =
      welcomeCount (trigStep s e).2 + (if s.welcomed then 1 else 0) := by
  cases e with
  | connect mc =>
    refine ⟨fun hp => hg hp, ?_⟩
    simp [trigStep, on_connect_trigger, welcomeCount]
  | disconnect mc =>
    have hf := flush_nicks_frame { s with mc_status := alPut mc 2 s.mc_status }
    simp only [trigStep, on_disconnect_trigger]
    have hcount : welcomeCount [JMEvent.disconnected] = 0 := rfl
    split
    · refine ⟨Good_of_fields hf.2.2.1 hf.2.2.2.1 hf.2.2.2.2 hg, ?_⟩
      rw [hf.2.2.1, hcount]
      simp
    · refine ⟨Good_of_fields hf.2.2.1 hf.2.2.2.1 hf.2.2.2.2 hg, ?_⟩
      rw [hf.2.2.1]
      simp [welcomeCount]
  | welcome mc =>
    simp only [trigStep, on_welcome_trigger, on_welcome_setup_finished]
    split
    · next hw =>
      refine ⟨fun hp => absurd (hg hp).1 (by simp_all), ?_⟩
      simp [hw, welcomeCount]
    · next hw =>
      split
      · split
        · next hann =>
          refine ⟨fun _ => ⟨by simpa using hw, rfl⟩, by simp [hw, welcomeCount]⟩
        · next hann =>
          refine ⟨fun hp => hg hp, by simp [hw, welcomeCount]⟩
      · split
        · next hann =>
          refine ⟨fun hp => by simp at hp, by simp [hw, welcomeCount]⟩
        · next hann =>
          refine ⟨fun hp => ?_, by simp [hw, welcomeCount]⟩
          exact absurd (hg hp).2 (by simpa using hann)
  | timer =>
    simp only [trigStep, timer_fire]
    by_cases hp : s.timer_pending
    · simp only [hp, if_true, on_welcome_setup_finished]
      refine ⟨fun hp2 => by simp at hp2, ?_⟩
      simp [(hg hp).1, welcomeCount]
    · simp only [hp, if_false]
      exact ⟨hg, by simp [welcomeCount]⟩

theorem trigRun_welcome (es : List TrigEvent) : ∀ (s : CollState), Good s →
    Good (trigRun s es).1 ∧
    (if (trigRun s es).1.welcomed then 1 else 0) =
      welcomeCount (trigRun s es).2 + (if s.welcomed then 1 else 0) := by
  induction es with
  | nil =>
    intro s hg
    exact ⟨hg, by simp [trigRun, welcomeCount]⟩
  | cons e rest ih =>
    intro s hg
    have h1 := trigStep_welcome s e hg
    have h2 := ih (trigStep s e).1 h1.1
    refine ⟨h2.1, ?_⟩
    simp only [trigRun]
    rw [welcomeCount_append]
    omega

theorem statusOf_alPut (s : CollState) (x : MChan) (v : Nat) (y : MChan) :
    statusOf { s with mc_status := alPut x v s.mc_status } y =
      if y = x then v else statusOf s y := by
  unfold statusOf
  rw [alGet_alPut]
  by_cases h : y = x <;> simp [h]

theorem mem_available {s : CollState} {mc : MChan} (h : mc ∈ available_channels s) :
    statusOf s mc = 1 ∧ mc ∈ s.mchannels := by
  have h2 := List.mem_filter.mp h
  exact ⟨of_decide_eq_true h2.2, h2.1⟩

theorem flush_repin_pins {st : CollState} {q : String} {p : String × MChan}
    (h : p ∈ (flush_repin st q).active_channels) :
    p ∈ st.active_channels ∨ (statusOf st p.2 = 1 ∧ p.2 ∈ st.mchannels) := by
  unfold flush_repin at h
  cases hf : (available_channels st).find? (fun mc2 => decide (q ∈ seenOf st mc2)) with
  | none => rw [hf] at h; exact Or.inl h
  | some mc2 =>
    rw [hf] at h
    rcases mem_alPut h with h2 | h2
    · have hmem := mem_available (List.mem_of_find?_eq_some hf)
      rw [h2]
      exact Or.inr hmem
    · exact Or.inl h2

theorem flush_repin_foldl_pins (l : List String) : ∀ (st : CollState) {p : String × MChan},
    p ∈ (l.foldl flush_repin st).active_channels →
    p ∈ st.active_channels ∨ (statusOf st p.2 = 1 ∧ p.2 ∈ st.mchannels) := by
  induction l with
  | nil => intro st p h; exact Or.inl h
  | cons q rest ih =>
    intro st p h
    simp only [List.foldl_cons] at h
    rcases ih (flush_repin st q) h with h2 | h2
    · exact flush_repin_pins h2
    · have hfr := flush_repin_frame st q
      rw [statusOf_congr hfr.1 p.2, hfr.2.1] at h2
      exact Or.inr h2

theorem flush_one_pins {s : CollState} {mc : MChan} {p : String × MChan}
    (h : p ∈ (flush_one s mc).active_channels) :
    ¬ p.2 = mc ∧ (p ∈ s.active_channels ∨ (statusOf s p.2 = 1 ∧ p.2 ∈ s.mchannels)) := by
  unfold flush_one at h
  have h2 := List.mem_filter.mp h
  refine ⟨of_decide_eq_true h2.2, ?_⟩
  have h3 := flush_repin_foldl_pins _ _ h2.1
  exact h3

theorem flush_fold_establishes (l : List MChan) : ∀ (st : CollState),
    (∀ y ∈ l, ¬ statusOf st y = 1) →
    ∀ p ∈ (l.foldl flush_one st).active_channels,
      ¬ p.2 ∈ l ∧ (p ∈ st.active_channels ∨ (statusOf st p.2 = 1 ∧ p.2 ∈ st.mchannels)) := by
  induction l with
  | nil =>
    intro st _ p hp
    exact ⟨by simp, Or.inl hp⟩
  | cons x xs ih =>
    intro st hst p hp
    simp only [List.foldl_cons] at hp
    have hfr := flush_one_frame st x
    have hst' : ∀ y ∈ xs, ¬ statusOf (flush_one st x) y = 1 := by
      intro y hy
      rw [statusOf_congr hfr.1 y]
      exact hst y (List.mem_cons_of_mem _ hy)
    have h2 := ih (flush_one st x) hst' p hp
    rcases h2.2 with h3 | h3
    · have h4 := flush_one_pins h3
      refine ⟨?_, h4.2⟩
      intro hmem
      rcases List.mem_cons.mp hmem with h5 | h5
      · exact h4.1 h5
      · exact h2.1 h5
    · rw [statusOf_congr hfr.1 p.2, hfr.2.1] at h3
      refine ⟨?_, Or.inr h3⟩
      intro hmem
      rcases List.mem_cons.mp hmem with h5 | h5
      · exact hst x (List.mem_cons_self _ _) (h5 ▸ h3.1)
      · exact h2.1 h5

theorem fst_ite {α β : Type} (c : Prop) [inst : Decidable c] (a : α) (x y : β) :
    (if c then (a, x) else (a, y)).1 = a := by
  split <;> rfl

theorem on_disconnect_fst (s : CollState) (mc : MChan) :
    (on_disconnect_trigger s mc).1 =
      flush_nicks { s with mc_status := alPut mc 2 s.mc_status } :=
  fst_ite _ _ _ _

theorem on_disconnect_establishes (s : CollState) (mc : MChan) (hwf : pinWF s) :
    pinInv (on_disconnect_trigger s mc).1 ∧ pinWF (on_disconnect_trigger s mc).1 := by
  rw [on_disconnect_fst]
  have hfr := flush_nicks_frame { s with mc_status := alPut mc 2 s.mc_status }
  have key := flush_fold_establishes
    (unavailable_channels { s with mc_status := alPut mc 2 s.mc_status })
    { s with mc_status := alPut mc 2 s.mc_status }
    (fun y hy => of_decide_eq_true (List.mem_filter.mp hy).2)
  constructor
  · intro p hp
    have h2 := key p hp
    rw [statusOf_congr hfr.1 p.2]
    rcases h2.2 with h3 | h3
    · -- an old pin that survived every unavailable-channel wipe
      have hm : p.2 ∈ ({ s with mc_status := alPut mc 2 s.mc_status } : CollState).mchannels :=
        hwf p h3
      have h4 : statusOf { s with mc_status := alPut mc 2 s.mc_status } p.2 = 1 := by
        by_contra hne
        exact h2.1 (List.mem_filter.mpr ⟨hm, decide_eq_true hne⟩)
      rw [h4]
      simp
    · rw [h3.1]
      simp
  · intro p hp
    have h2 := key p hp
    rw [hfr.2.1]
    rcases h2.2 with h3 | h3
    · exact hwf p h3
    · exact h3.2

theorem pinInv_transfer {s s' : CollState} (hac : s'.active_channels = s.active_channels)
    (hms : s'.mc_status = s.mc_status) (hinv : pinInv s) : pinInv s' := by
  intro p hp
  rw [hac] at hp
  rw [statusOf_congr hms]
  exact hinv p hp

theorem pinWF_transfer {s s' : CollState} (hac : s'.active_channels = s.active_channels)
    (hm : s'.mchannels = s.mchannels) (hwf : pinWF s) : pinWF s' := by
  intro p hp
  rw [hac] at hp
  rw [hm]
  exact hwf p hp

theorem pinInv_status1 (s : CollState) (mc : MChan) (hinv : pinInv s) :
    pinInv { s with mc_status := alPut mc 1 s.mc_status } := by
  intro p hp
  rw [statusOf_alPut]
  split
  · simp
  · exact hinv p hp

theorem on_welcome_fields (s : CollState) (mc : MChan) :
    (on_welcome_trigger s mc).1.active_channels = s.active_channels ∧
    (on_welcome_trigger s mc).1.mc_status = alPut mc 1 s.mc_status ∧
    (on_welcome_trigger s mc).1.mchannels = s.mchannels := by
  simp only [on_welcome_trigger, on_welcome_setup_finished]
  split
  · exact ⟨rfl, rfl, rfl⟩
  · split
    · split
      · exact ⟨rfl, rfl, rfl⟩
      · exact ⟨rfl, rfl, rfl⟩
    · split
      · exact ⟨rfl, rfl, rfl⟩
      · exact ⟨rfl, rfl, rfl⟩

theorem on_welcome_preserves (s : CollState) (mc : MChan) (hinv : pinInv s) (hwf : pinWF s) :
    pinInv (on_welcome_trigger s mc).1 ∧ pinWF (on_welcome_trigger s mc).1 := by
  have hf := on_welcome_fields s mc
  constructor
  · exact @pinInv_transfer { s with mc_status := alPut mc 1 s.mc_status } _
      hf.1 hf.2.1 (pinInv_status1 s mc hinv)
  · exact pinWF_transfer hf.1 hf.2.2 hwf

theorem on_connect_preserves (s : CollState) (mc : MChan) (hinv : pinInv s) (hwf : pinWF s) :
    pinInv (on_connect_trigger s mc) ∧ pinWF (on_connect_trigger s mc) := by
  exact ⟨pinInv_status1 s mc hinv, hwf⟩

theorem on_order_seen_preserves (s : CollState) (mc : MChan)
    (cp oid ot ms mx tf cf : String) (hinv : pinInv s) (hwf : pinWF s)
    (hmc : mc ∈ available_channels s) :
    pinInv (on_order_seen_trigger s mc cp oid ot ms mx tf cf).1 ∧
    pinWF (on_order_seen_trigger s mc cp oid ot ms mx tf cf).1 := by
  have hav := mem_available hmc
  constructor
  · intro p hp
    have hp' : p ∈ alPut cp mc s.active_channels := hp
    show ¬ statusOf s p.2 = 2
    rcases mem_alPut hp' with h2 | h2
    · rw [h2]
      simp [hav.1]
    · exact hinv p h2
  · intro p hp
    have hp' : p ∈ alPut cp mc s.active_channels := hp
    show p.2 ∈ s.mchannels
    rcases mem_alPut hp' with h2 | h2
    · rw [h2]
      exact hav.2
    · exact hwf p h2

theorem nick_leave_repin_preserves (s1 : CollState) (nick : String) (mc : MChan)
    (hinv : pinInv s1) (hwf : pinWF s1) :
    pinInv (nick_leave_repin s1 nick mc).1 ∧ pinWF (nick_leave_repin s1 nick mc).1 := by
  simp only [nick_leave_repin]
  have hinv2 : pinInv { s1 with active_channels := alDel nick s1.active_channels } := by
    intro p hp
    show ¬ statusOf s1 p.2 = 2
    exact hinv p (mem_alDel hp)
  have hwf2 : pinWF { s1 with active_channels := alDel nick s1.active_channels } := by
    intro p hp
    show p.2 ∈ s1.mchannels
    exact hwf p (mem_alDel hp)
  split
  · exact ⟨hinv2, hwf2⟩
  · split
    · next oc heq =>
      have hoc := (List.mem_filter.mp (List.mem_of_find?_eq_some heq)).1
      have hav := mem_available hoc
      have hst : statusOf s1 oc = 1 := hav.1
      have hmm : oc ∈ s1.mchannels := hav.2
      constructor
      · intro p hp
        have hp' : p ∈ alPut nick oc (alDel nick s1.active_channels) := hp
        show ¬ statusOf s1 p.2 = 2
        rcases mem_alPut hp' with h2 | h2
        · rw [h2]
          simp [hst]
        · exact hinv p (mem_alDel h2)
      · intro p hp
        have hp' : p ∈ alPut nick oc (alDel nick s1.active_channels) := hp
        show p.2 ∈ s1.mchannels
        rcases mem_alPut hp' with h2 | h2
        · rw [h2]
          exact hmm
        · exact hwf p (mem_alDel h2)
    · exact ⟨hinv2, hwf2⟩

theorem on_nick_leave_preserves (s : CollState) (nick : String) (mc : MChan)
    (hinv : pinInv s) (hwf : pinWF s) :
    pinInv (on_nick_leave_trigger s nick mc).1 ∧
    pinWF (on_nick_leave_trigger s nick mc).1 := by
  simp only [on_nick_leave_trigger]
  have hinv1 : pinInv (unsee_nick s nick mc) := by
    intro p hp
    show ¬ statusOf s p.2 = 2
    exact hinv p hp
  have hwf1 : pinWF (unsee_nick s nick mc) := by
    intro p hp
    show p.2 ∈ s.mchannels
    exact hwf p hp
  split
  · exact ⟨hinv1, hwf1⟩
  · split
    · exact nick_leave_repin_preserves (unsee_nick s nick mc) nick mc hinv1 hwf1
    · exact ⟨hinv1, hwf1⟩

theorem check_privmsg_preserves {α : Type} (s : CollState) (cp : String)
    (func : CollState → CollState × Option α)
    (hfunc : ∀ st, (func st).1 = st)
    (hinv : pinInv s) (hwf : pinWF s) :
    pinInv (check_privmsg s cp func).1 ∧ pinWF (check_privmsg s cp func).1 := by
  unfold check_privmsg
  cases alGet cp s.active_channels with
  | some c =>
    rw [hfunc s]
    exact ⟨hinv, hwf⟩
  | none =>
    cases hf : (available_channels s).find? (fun mc => decide (cp ∈ seenOf s mc)) with
    | none => exact ⟨hinv, hwf⟩
    | some mc =>
      rw [hfunc _]
      have hav := mem_available (List.mem_of_find?_eq_some hf)
      constructor
      · intro p hp
        have hp' : p ∈ alPut cp mc s.active_channels := hp
        show ¬ statusOf s p.2 = 2
        rcases mem_alPut hp' with h2 | h2
        · rw [h2]
          simp [hav.1]
        · exact hinv p h2
      · intro p hp
        have hp' : p ∈ alPut cp mc s.active_channels := hp
        show p.2 ∈ s.mchannels
        rcases mem_alPut hp' with h2 | h2
        · rw [h2]
          exact hav.2
        · exact hwf p h2

theorem seenOf_see_nick_self (s : CollState) (nick : String) (mc : MChan) :
    nick ∈ seenOf (see_nick s nick mc) mc := by
  unfold see_nick seenOf
  rw [alGet_alPut]
  simp [mem_addNick]

theorem seenOf_unsee_self (s : CollState) (nick : String) (mc : MChan) :
    ¬ nick ∈ seenOf (unsee_nick s nick mc) mc := by
  unfold unsee_nick seenOf removeNick
  rw [alGet_alPut]
  simp

theorem seen_mono_see {s : CollState} {nick : String} {mc : MChan} {x : String} {q : MChan}
    (h : x ∈ seenOf s q) : x ∈ seenOf (see_nick s nick mc) q := by
  unfold see_nick seenOf
  rw [alGet_alPut]
  split
  · next heq => exact mem_addNick_of_mem _ (heq ▸ h)
  · exact h

theorem seen_mono_order (s : CollState) (mc : MChan)
    (cp oid ot ms mx tf cf : String) {x : String} {q : MChan}
    (h : x ∈ seenOf s q) :
    x ∈ seenOf (on_order_seen_trigger s mc cp oid ot ms mx tf cf).1 q := by
  show x ∈ (alGet q (alPut mc (addNick cp (seenOf s mc)) s.nicks_seen)).getD []
  rw [alGet_alPut]
  split
  · next heq => exact mem_addNick_of_mem _ (heq ▸ h)
  · exact h

theorem seen_mono_cfo (s : CollState) (cfg : ProtoConfig) (mc : MChan)
    (nick : String) (chunks : List String) {x : String} {q : MChan}
    (h : x ∈ seenOf s q) :
    x ∈ seenOf (check_for_orders s cfg mc nick chunks).2.1 q := by
  unfold check_for_orders
  split
  · exact h
  · split
    · split
      · exact seen_mono_order _ _ _ _ _ _ _ _ _ h
      · exact h
    · exact h

theorem seen_mono_pubcmd (s : CollState) (cfg : ProtoConfig) (mc : MChan)
    (nick command : String) {x : String} {q : MChan}
    (h : x ∈ seenOf s q) :
    x ∈ seenOf (pubmsg_command s cfg mc nick command).1 q := by
  simp only [pubmsg_command]
  split
  · exact seen_mono_cfo _ _ _ _ _ h
  · repeat' split
    all_goals exact h

theorem seen_mono_publoop (cfg : ProtoConfig) (mc : MChan) (nick : String) :
    ∀ (cmds : List String) (s : CollState) {x : String} {q : MChan},
    x ∈ seenOf s q → x ∈ seenOf (pubmsg_loop s cfg mc nick cmds).1 q := by
  intro cmds
  induction cmds with
  | nil => intro s x q h; exact h
  | cons c rest ih =>
    intro s x q h
    simp only [pubmsg_loop]
    split
    · exact ih _ (seen_mono_pubcmd _ _ _ _ _ h)
    · exact seen_mono_pubcmd _ _ _ _ _ h

theorem seen_mono_p2cmd {s : CollState} {cfg : ProtoConfig} {mc : MChan}
    {nick c : String} {r : CollState × List JMEvent}
    (heq : phase2_command s cfg mc nick c = some r) {x : String} {q : MChan}
    (h : x ∈ seenOf s q) : x ∈ seenOf r.1 q := by
  unfold phase2_command at heq
  split at heq
  · exact absurd heq (by simp)
  · rw [Option.some.inj heq.symm]
    simp only [phase2_dispatch]
    split
    · exact seen_mono_cfo _ _ _ _ _ h
    · split <;> exact h

theorem seen_mono_p2loop (cfg : ProtoConfig) (mc : MChan) (nick : String) :
    ∀ (cmds : List String) (s : CollState) {x : String} {q : MChan},
    x ∈ seenOf s q → x ∈ seenOf (phase2_loop s cfg mc nick cmds).1 q := by
  intro cmds
  induction cmds with
  | nil => intro s x q h; exact h
  | cons c rest ih =>
    intro s x q h
    simp only [phase2_loop]
    split
    · exact h
    · next r heq => exact ih _ (seen_mono_p2cmd heq h)

theorem pubmsg_seen_unconditional (s : CollState) (cfg : ProtoConfig) (mc : MChan)
    (nick msg : String) :
    nick ∈ seenOf (mc_on_pubmsg s cfg mc nick msg).1 mc := by
  simp only [mc_on_pubmsg]
  have h0 := seenOf_see_nick_self s nick mc
  split
  · exact h0
  · split
    · exact h0
    · split
      · exact h0
      · exact seen_mono_publoop _ _ _ _ _ h0

theorem mccpriv_seen_self (s : CollState) (nick : String) (mc : MChan)
    (hav : mc ∈ available_channels s) :
    nick ∈ seenOf (mcc_on_privmsg s nick mc) mc := by
  unfold mcc_on_privmsg
  rw [if_pos hav]
  exact seenOf_see_nick_self s nick mc

theorem verified_seen (s : CollState) (cfg : ProtoConfig) (mc : MChan)
    (nick msg : String) (hav : mc ∈ available_channels s) :
    nick ∈ seenOf (mc_on_verified_privmsg s cfg mc nick msg).1 mc := by
  unfold mc_on_verified_privmsg
  exact seen_mono_p2loop _ _ _ _ _ (mccpriv_seen_self s nick mc hav)

/-- C10: every inbound public message marks the sending nick as seen on
the receiving channel unconditionally (before any validation, whatever
the message contents and the channel status), while the verified
private-message sighting (`MessageChannelCollection.on_privmsg`) is
recorded only when the receiving channel is currently available, and is
silently skipped otherwise. -/
theorem C10_sighting_paths (s : CollState) (cfg : ProtoConfig) (mc : MChan)
    (nick msg : String) :
    nick ∈ seenOf (mc_on_pubmsg s cfg mc nick msg).1 mc ∧
    (mc ∈ available_channels s → nick ∈ seenOf (mcc_on_privmsg s nick mc) mc) ∧
    (¬ mc ∈ available_channels s → mcc_on_privmsg s nick mc = s) := by
  refine ⟨pubmsg_seen_unconditional s cfg mc nick msg,
    mccpriv_seen_self s nick mc, ?_⟩
  intro hna
  unfold mcc_on_privmsg
  rw [if_neg hna]

/-- Witness for C10 at concrete inputs: `chA` is available in `sC3`, so
the verified-privmsg trigger records "bob"; a channel outside the
collection is not available, so the state is unchanged. -/
theorem C10_witness :
    "bob" ∈ seenOf (mcc_on_privmsg sC3 "bob" chA) chA ∧
    mcc_on_privmsg sC3 "bob" ⟨2, "hostC"⟩ = sC3 :=
  ⟨(C10_sighting_paths sC3 cfgEx chA "bob" "x").2.1 (by decide),
   (C10_sighting_paths sC3 cfgEx ⟨2, "hostC"⟩ "bob" "x").2.2 (by decide)⟩

/-- C7: the unverified phase-1 private-message handler records no
sighting and no pin for any input (its only output is the verification
request); the phase-2 (verified) handler records the sighting; the
public-message path records the sighting unconditionally, and a public
offer sub-command pins the counterparty to the receiving channel with no
signature check anywhere on the path. -/
theorem C7_authenticated_sighting (s : CollState) (cfg : ProtoConfig) (mc : MChan)
    (nick msg command : String) :
    (priv_phase1 s cfg mc nick msg).1 = s ∧
    (mc ∈ available_channels s →
      nick ∈ seenOf (mc_on_verified_privmsg s cfg mc nick msg).1 mc) ∧
    nick ∈ seenOf (mc_on_pubmsg s cfg mc nick msg).1 mc ∧
    (∀ (c0 oid ms mx tf cf : String) (rest : List String),
      pySplit ' ' command = c0 :: oid :: ms :: mx :: tf :: cf :: rest →
      c0 ∈ cfg.offername_list →
      alGet nick (pubmsg_command s cfg mc nick command).1.active_channels = some mc) := by
  refine ⟨rfl, verified_seen s cfg mc nick msg,
    pubmsg_seen_unconditional s cfg mc nick msg, ?_⟩
  intro c0 oid ms mx tf cf rest hsplit hc0
  simp only [pubmsg_command, hsplit, check_for_orders, if_pos hc0]
  simp [on_order_seen_trigger, alGet_alPut]

/-- Witness for C7 at concrete inputs: a verified privmsg on available
`chA` records "bob" there, and the public offer "reloffer 1 2 3 4 5"
pins "bob" to `chA` without any verification. -/
theorem C7_witness :
    "bob" ∈ seenOf (mc_on_verified_privmsg sC3 cfgEx chA "bob" "!fill a p s").1 chA ∧
    alGet "bob" (pubmsg_command sC3 cfgEx chA "bob" "reloffer 1 2 3 4 5").1.active_channels
      = some chA :=
  ⟨(C7_authenticated_sighting sC3 cfgEx chA "bob" "!fill a p s" "x").2.1 (by decide),
   (C7_authenticated_sighting sC3 cfgEx chA "bob" "x" "reloffer 1 2 3 4 5").2.2.2
     "reloffer" "1" "2" "3" "4" "5" [] (by decide) (by decide)⟩

theorem nick_leave_repin_seen (s1 : CollState) (nick : String) (mc : MChan) :
    (nick_leave_repin s1 nick mc).1.nicks_seen = s1.nicks_seen := by
  simp only [nick_leave_repin]
  split
  · rfl
  · split <;> rfl

theorem nick_leave_seen (s : CollState) (nick : String) (mc : MChan) :
    ¬ nick ∈ seenOf (on_nick_leave_trigger s nick mc).1 mc := by
  simp only [on_nick_leave_trigger]
  split
  · exact seenOf_unsee_self s nick mc
  · split
    · unfold seenOf
      rw [nick_leave_repin_seen]
      exact seenOf_unsee_self s nick mc
    · exact seenOf_unsee_self s nick mc

theorem nick_leave_repin_char (s1 : CollState) (nick : String) (mc : MChan) :
    (∀ oc, (((available_channels { s1 with
          active_channels := alDel nick s1.active_channels }).filter
        (fun x => ¬ x = mc)).find? (fun oc => decide (nick ∈ seenOf { s1 with
          active_channels := alDel nick s1.active_channels } oc))) = some oc →
      nick_leave_repin s1 nick mc =
        ({ s1 with active_channels := alPut nick oc (alDel nick s1.active_channels) }, [])) ∧
    ((((available_channels { s1 with
          active_channels := alDel nick s1.active_channels }).filter
        (fun x => ¬ x = mc)).find? (fun oc => decide (nick ∈ seenOf { s1 with
          active_channels := alDel nick s1.active_channels } oc))) = none →
      nick_leave_repin s1 nick mc =
        ({ s1 with active_channels := alDel nick s1.active_channels },
          [JMEvent.nickLeave nick])) := by
  constructor
  · intro oc hf
    simp only [nick_leave_repin]
    split
    · next hemp =>
      rw [hemp] at hf
      simp at hf
    · split
      · next oc2 heq =>
        rw [hf] at heq
        rw [← Option.some.inj heq]
      · next heq =>
        rw [hf] at heq
        simp at heq
  · intro hf
    simp only [nick_leave_repin]
    split
    · rfl
    · split
      · next oc2 heq =>
        rw [hf] at heq
        simp at heq
      · rfl

/-- C8: on a nick-leave for `nick` on channel `mc`: the nick is removed
from that channel's seen-set; if it is not pinned anywhere the
nick-leave callback fires; if it is pinned to a different channel,
nothing further happens; if it is pinned to `mc`, the pin is dropped
and the other available channels are searched — on the first whose
seen-set contains the nick it is silently re-pinned (no callback),
otherwise the nick-leave callback fires exactly once. -/
theorem C8_nick_leave (s : CollState) (nick : String) (mc : MChan) :
    ¬ nick ∈ seenOf (on_nick_leave_trigger s nick mc).1 mc ∧
    (alGet nick (unsee_nick s nick mc).active_channels = none →
      on_nick_leave_trigger s nick mc =
        (unsee_nick s nick mc, [JMEvent.nickLeave nick])) ∧
    (∀ p, alGet nick (unsee_nick s nick mc).active_channels = some p → ¬ p = mc →
      on_nick_leave_trigger s nick mc = (unsee_nick s nick mc, [])) ∧
    (alGet nick (unsee_nick s nick mc).active_channels = some mc →
      (∀ oc, nlFind s nick mc = some oc →
        alGet nick (on_nick_leave_trigger s nick mc).1.active_channels = some oc ∧
        (on_nick_leave_trigger s nick mc).2 = []) ∧
      (nlFind s nick mc = none →
        alGet nick (on_nick_leave_trigger s nick mc).1.active_channels = none ∧
        (on_nick_leave_trigger s nick mc).2 = [JMEvent.nickLeave nick])) := by
  refine ⟨nick_leave_seen s nick mc, ?_, ?_, ?_⟩
  · intro h
    simp only [on_nick_leave_trigger, h]
  · intro p h hne
    simp only [on_nick_leave_trigger, h]
    rw [if_neg hne]
  · intro h
    have hred : on_nick_leave_trigger s nick mc =
        nick_leave_repin (unsee_nick s nick mc) nick mc := by
      simp only [on_nick_leave_trigger, h]
      rw [if_true]
    constructor
    · intro oc hf
      have hc := (nick_leave_repin_char (unsee_nick s nick mc) nick mc).1 oc hf
      rw [hred, hc]
      constructor
      · show alGet nick
          (alPut nick oc (alDel nick (unsee_nick s nick mc).active_channels)) = some oc
        rw [alGet_alPut]
        simp
      · rfl
    · intro hf
      have hc := (nick_leave_repin_char (unsee_nick s nick mc) nick mc).2 hf
      rw [hred, hc]
      exact ⟨alGet_alDel_self _ _, rfl⟩

/-- Witness for C8: "bob" pinned to `chA` and seen on `chB` leaves
`chA`: the pin silently moves to `chB` and no nick-leave callback
fires. -/
theorem C8_witness :
    alGet "bob" (on_nick_leave_trigger sPin "bob" chA).1.active_channels = some chB ∧
    (on_nick_leave_trigger sPin "bob" chA).2 = [] :=
  ((C8_nick_leave sPin "bob" chA).2.2.2 (by decide)).1 chB (by decide)

theorem inner_payload_char (cfg : ProtoConfig) (s : CollState) (nick cmd m : String)
    (mco : Option MChan) (req : SignRequest)
    (h : prepare_privmsg_inner cfg s nick cmd m mco = some req) :
    req.payload = req.message ++ req.hostid ∧
    (∀ c, mco = some c → req.hostid = c.hostid) ∧
    (mco = none → ∀ c, alGet nick s.active_channels = some c → req.hostid = c.hostid) := by
  unfold prepare_privmsg_inner at h
  cases he : encrypt_step cfg nick cmd m with
  | none => rw [he] at h; simp at h
  | some m2 =>
    rw [he] at h
    cases hh : resolve_hostid s nick mco with
    | none => rw [hh] at h; simp at h
    | some h2 =>
      rw [hh] at h
      rw [← Option.some.inj h]
      refine ⟨rfl, ?_, ?_⟩
      · intro c hc
        rw [hc] at hh
        exact (Option.some.inj hh).symm
      · intro hn c hget
        rw [hn] at hh
        unfold resolve_hostid at hh
        rw [hget] at hh
        simp at hh
        exact hh.symm

/-- C9: the payload submitted for signing by `prepare_privmsg` is
exactly the (possibly encrypted) message concatenated with the hostid of
the chosen channel (the explicit channel if given, else the pinned one),
and the payload submitted for verification by phase-1 `on_privmsg` is
exactly the stripped raw message body concatenated with the receiving
channel's own hostid. -/
theorem C9_antireplay (cfg : ProtoConfig) (s : CollState) (nick cmd m : String)
    (mco : Option MChan) (mc : MChan) (pmsg : String) :
    (∀ req, prepare_privmsg_inner cfg s nick cmd m mco = some req →
      req.payload = req.message ++ req.hostid ∧
      (∀ c, mco = some c → req.hostid = c.hostid) ∧
      (mco = none → ∀ c, alGet nick s.active_channels = some c →
        req.hostid = c.hostid)) ∧
    (∀ req, (prepare_privmsg cfg s nick cmd m mco).2 = some req →
      req.payload = req.message ++ req.hostid) ∧
    (∀ vreq, mc_on_privmsg cfg mc nick pmsg = some vreq →
      vreq.hostid = mc.hostid ∧
      vreq.payload = String.intercalate " "
          (((pySplit ' ' (strTail pmsg)).drop 1).dropLast.dropLast) ++ mc.hostid) := by
  refine ⟨fun req h => inner_payload_char cfg s nick cmd m mco req h, ?_, ?_⟩
  · intro req h
    unfold prepare_privmsg check_privmsg at h
    split at h
    · exact (inner_payload_char cfg s nick cmd m mco req h).1
    · split at h
      · exact (inner_payload_char cfg _ nick cmd m mco req h).1
      · simp at h
  · intro vreq h
    simp only [mc_on_privmsg] at h
    split at h
    · simp at h
    · split at h
      · simp at h
      · split at h
        · simp at h
        · split at h
          · split at h
            · simp at h
            · split at h
              · rw [← Option.some.inj h]
                exact ⟨rfl, rfl⟩
              · simp at h
          · simp at h

/-- Witness for C9: a "fill" privmsg prepared for pinned channel `chA`
is signed over `"m" ++ "hostA"`, and an inbound "!fill a p s" received
on `chA` is submitted for verification over `"a" ++ "hostA"`. -/
theorem C9_witness :
    (∃ req, prepare_privmsg_inner cfgEx sPin "bob" "fill" "m" none = some req ∧
      req.payload = req.message ++ req.hostid ∧ req.hostid = chA.hostid) ∧
    (∃ vreq, mc_on_privmsg cfgEx chA "bob" "!fill a p s" = some vreq ∧
      vreq.hostid = chA.hostid ∧ vreq.payload = "a" ++ chA.hostid) := by
  constructor
  · refine ⟨⟨"bob", "fill", "m", "mhostA", "hostA"⟩, rfl, ?_⟩
    have h := (C9_antireplay cfgEx sPin "bob" "fill" "m" none chA "!fill a p s").1
      ⟨"bob", "fill", "m", "mhostA", "hostA"⟩ rfl
    exact ⟨h.1, h.2.2 rfl chA (by decide)⟩
  · refine ⟨⟨"ahostA", "!fill a p s", "s", "p", "bob", "hostA"⟩, rfl, ?_⟩
    have h := (C9_antireplay cfgEx sPin "bob" "fill" "m" none chA "!fill a p s").2.2
      ⟨"ahostA", "!fill a p s", "s", "p", "bob", "hostA"⟩ rfl
    exact ⟨h.1, h.2.trans (by rfl)⟩

/-- Counterexample to C3 as stated: in `sC3`, "bob" is unpinned but seen
on available `chB`; the spec-worded routed-send resolution would re-pin
and send on `chB`, but `privmsg` without an explicit channel sends
nothing at all (it never scans the seen-sets). -/
theorem C3_counterexample :
    (specRoutedSend sC3 "bob").2 = some chB ∧
    mcc_privmsg sC3 "bob" "fill" "x" none = none := by
  exact ⟨by decide, by decide⟩

/-- C3 as amended: the `check_privmsg`-decorated sends (`prepare_privmsg`
and its wrappers) use the pin whenever one exists — available or not —
and scan/re-pin only when no pin exists, dropping when no available
channel has seen the counterparty; plain `privmsg` without an explicit
channel uses the pin if any and otherwise drops without scanning. -/
theorem C3_routing (cfg : ProtoConfig) (s : CollState) (nick cmd m : String) :
    (∀ c, alGet nick s.active_channels = some c →
      prepare_privmsg cfg s nick cmd m none =
        (s, prepare_privmsg_inner cfg s nick cmd m none) ∧
      (∀ req, prepare_privmsg_inner cfg s nick cmd m none = some req →
        req.hostid = c.hostid) ∧
      mcc_privmsg s nick cmd m none = some ⟨c, nick, cmd, m⟩) ∧
    (alGet nick s.active_channels = none →
      mcc_privmsg s nick cmd m none = none ∧
      (∀ mc2, (available_channels s).find? (fun x => decide (nick ∈ seenOf s x)) = some mc2 →
        (prepare_privmsg cfg s nick cmd m none).1 =
          { s with active_channels := alPut nick mc2 s.active_channels } ∧
        alGet nick (prepare_privmsg cfg s nick cmd m none).1.active_channels = some mc2 ∧
        (∀ req, (prepare_privmsg cfg s nick cmd m none).2 = some req →
          req.hostid = mc2.hostid)) ∧
      ((available_channels s).find? (fun x => decide (nick ∈ seenOf s x)) = none →
        prepare_privmsg cfg s nick cmd m none = (s, none))) := by
  constructor
  · intro c hc
    refine ⟨?_, ?_, ?_⟩
    · unfold prepare_privmsg check_privmsg
      rw [hc]
    · intro req hreq
      exact (inner_payload_char cfg s nick cmd m none req hreq).2.2 rfl c hc
    · unfold mcc_privmsg
      rw [hc]
  · intro hn
    refine ⟨?_, ?_, ?_⟩
    · unfold mcc_privmsg
      rw [hn]
    · intro mc2 hf
      have hred : prepare_privmsg cfg s nick cmd m none =
          ({ s with active_channels := alPut nick mc2 s.active_channels },
            prepare_privmsg_inner cfg
              { s with active_channels := alPut nick mc2 s.active_channels }
              nick cmd m none) := by
        unfold prepare_privmsg check_privmsg
        rw [hn, hf]
      refine ⟨by rw [hred], ?_, ?_⟩
      · rw [hred]
        show alGet nick (alPut nick mc2 s.active_channels) = some mc2
        rw [alGet_alPut]
        simp
      · intro req hreq
        rw [hred] at hreq
        refine (inner_payload_char cfg _ nick cmd m none req hreq).2.2 rfl mc2 ?_
        show alGet nick (alPut nick mc2 s.active_channels) = some mc2
        rw [alGet_alPut]
        simp
    · intro hf
      unfold prepare_privmsg check_privmsg
      rw [hn, hf]

/-- Witness for C3 (amended): pinned "bob" routes `privmsg` to `chA`,
and an unpinned "bob" seen on `chB` gets re-pinned to `chB` by a
decorated send. -/
theorem C3_witness :
    mcc_privmsg sPin "bob" "fill" "m" none = some ⟨chA, "bob", "fill", "m"⟩ ∧
    alGet "bob" (prepare_privmsg cfgEx sC3 "bob" "fill" "m" none).1.active_channels
      = some chB :=
  ⟨((C3_routing cfgEx sPin "bob" "fill" "m").1 chA (by decide)).2.2,
   (((C3_routing cfgEx sC3 "bob" "fill" "m").2 (by decide)).2.1 chB (by decide)).2.1⟩

/-- Counterexample to C4 as stated: with no session key, the message
`!enc foo!error bar p s` produces no events at all — the plaintext
`error bar` sub-command after the failing encrypted one is *not*
processed, although processing it alone would fire the error callback. -/
theorem C4_counterexample :
    (mc_on_verified_privmsg sC3 cfgEx chA "bob" "!enc foo!error bar p s").2 = [] ∧
    (phase2_loop sC3 cfgEx chA "bob" ["error bar"]).2 = [JMEvent.errorEvt "bar"] := by
  exact ⟨by decide, by decide⟩

/-- C4 as amended: in phase-2 processing, a sub-command whose required
decryption fails (missing session key, or decode error) makes the
handler return, dropping that sub-command **and every remaining
sub-command of the message**; only when the decrypt step succeeds does
processing continue with the rest (per-sub-command dispatch parse errors
are absorbed inside `phase2_dispatch` and never abort the loop). -/
theorem C4_decrypt_abort (cfg : ProtoConfig) (s : CollState) (mc : MChan)
    (nick c : String) (rest : List String) (c0 : String) (cr : List String) :
    (phase2_command s cfg mc nick c = none →
      phase2_loop s cfg mc nick (c :: rest) = (s, [])) ∧
    (phase2_command s cfg mc nick c = none ↔
      phase2_decrypt cfg nick (pySplit ' ' c) = none) ∧
    (∀ r, phase2_command s cfg mc nick c = some r →
      phase2_loop s cfg mc nick (c :: rest) =
        ((phase2_loop r.1 cfg mc nick rest).1,
          r.2 ++ (phase2_loop r.1 cfg mc nick rest).2)) ∧
    (pySplit ' ' c = c0 :: cr → c0 ∈ cfg.encrypted_commands →
      ¬ c0 ∈ cfg.plaintext_commands →
      (cfg.boxFor nick = none → phase2_decrypt cfg nick (pySplit ' ' c) = none) ∧
      (∀ b, cfg.boxFor nick = some b → cfg.decode_decrypt (String.join cr) b = none →
        phase2_decrypt cfg nick (pySplit ' ' c) = none)) := by
  refine ⟨?_, ?_, ?_, ?_⟩
  · intro h
    simp only [phase2_loop, h]
  · unfold phase2_command
    cases hd : phase2_decrypt cfg nick (pySplit ' ' c) <;> simp
  · intro r h
    simp only [phase2_loop, h]
  · intro hsplit henc hnp
    constructor
    · intro hbox
      unfold phase2_decrypt
      rw [hsplit]
      simp [henc, get_encryption_box, hnp, hbox]
    · intro b hbox hdec
      unfold phase2_decrypt
      rw [hsplit]
      simp [henc, get_encryption_box, hnp, hbox, hdec]

/-- Witness for C4 (amended): the failing encrypted sub-command
`enc foo` aborts the whole two-sub-command message. -/
theorem C4_witness :
    phase2_loop sC3 cfgEx chA "bob" ["enc foo", "error bar"] = (sC3, []) :=
  (C4_decrypt_abort cfgEx sC3 chA "bob" "enc foo" ["error bar"] "enc" ["foo"]).1 (by decide)

/-- Counterexample to C5 as stated: in `!cancel x!cancel 5` the
non-integer order id of the first cancel sub-command aborts the whole
message (no events), although the second sub-command alone would fire
the cancel callback with oid 5. -/
theorem C5_counterexample :
    (mc_on_pubmsg sC3 cfgEx chA "bob" "!cancel x!cancel 5").2 = .ok [] ∧
    (mc_on_pubmsg sC3 cfgEx chA "bob" "!cancel 5").2 =
      .ok [JMEvent.orderCancel "bob" 5] := by
  exact ⟨rfl, rfl⟩

/-- C5 as amended: a public message not starting with the command
character is rejected after the sighting; a duplicated literal
`orderbook` sub-command discards the whole message with zero callbacks;
an offer-keyword sub-command with missing fields is skipped and the
remaining sub-commands are still processed; but a parse failure on a
`cancel` sub-command (missing or non-integer order id) aborts the
remaining sub-commands of the message. -/
theorem C5_pubmsg (cfg : ProtoConfig) (s : CollState) (mc : MChan) (nick msg : String)
    (c : String) (cs : List String) (c0 : String) (rest : List String) :
    (∀ ch rest2, msg.data = ch :: rest2 → ¬ ch = cfg.cmdChar →
      mc_on_pubmsg s cfg mc nick msg = (see_nick s nick mc, .ok [])) ∧
    (∀ ch rest2, msg.data = ch :: rest2 → ch = cfg.cmdChar →
      1 < ((splitCharAux cfg.cmdChar rest2).map String.mk).countP
        (fun x => decide (x = "orderbook")) →
      mc_on_pubmsg s cfg mc nick msg = (see_nick s nick mc, .ok [])) ∧
    (pySplit ' ' c = c0 :: rest → c0 ∈ cfg.offername_list → rest.length < 5 →
      pubmsg_loop s cfg mc nick (c :: cs) = pubmsg_loop s cfg mc nick cs) ∧
    (pySplit ' ' c = c0 :: rest → ¬ c0 ∈ cfg.offername_list → c0 = "cancel" →
      (rest = [] ∨ ∃ x rx, rest = x :: rx ∧ pyToInt x = none) →
      pubmsg_loop s cfg mc nick (c :: cs) = (s, [])) := by
  refine ⟨?_, ?_, ?_, ?_⟩
  · intro ch rest2 hdata hne
    simp only [mc_on_pubmsg, hdata]
    rw [if_pos hne]
  · intro ch rest2 hdata heq hcount
    simp only [mc_on_pubmsg, hdata]
    rw [if_neg (not_not_intro heq), if_pos hcount]
  · intro hsplit hc0 hlen
    have hcmd : pubmsg_command s cfg mc nick c = (s, [], true) := by
      unfold pubmsg_command check_for_orders
      rw [hsplit]
      rcases rest with _ | ⟨a, _ | ⟨b, _ | ⟨c2, _ | ⟨d, _ | ⟨e, tail⟩⟩⟩⟩⟩
      · simp [hc0]
      · simp [hc0]
      · simp [hc0]
      · simp [hc0]
      · simp [hc0]
      · simp at hlen
        omega
    simp only [pubmsg_loop, hcmd]
    simp
  · intro hsplit hnc0 hcan hbad
    subst hcan
    have hcmd : pubmsg_command s cfg mc nick c = (s, [], false) := by
      unfold pubmsg_command check_for_orders
      rw [hsplit]
      rcases hbad with hnil | ⟨x, rx, hxr, hx⟩
      · subst hnil
        simp [hnc0]
      · subst hxr
        simp [hnc0, hx]
    simp only [pubmsg_loop, hcmd]
    simp

/-- Witness for C5 (amended): a malformed offer sub-command is skipped
with processing continuing, and a malformed cancel aborts. -/
theorem C5_witness :
    pubmsg_loop sC3 cfgEx chA "bob" ["reloffer 1", "cancel 5"] =
      pubmsg_loop sC3 cfgEx chA "bob" ["cancel 5"] ∧
    pubmsg_loop sC3 cfgEx chA "bob" ["cancel x", "cancel 5"] = (sC3, []) :=
  ⟨(C5_pubmsg cfgEx sC3 chA "bob" "m" "reloffer 1" ["cancel 5"] "reloffer" ["1"]).2.2.1
      (by decide) (by decide) (by decide),
   (C5_pubmsg cfgEx sC3 chA "bob" "m" "cancel x" ["cancel 5"] "cancel" ["x"]).2.2.2
      (by decide) (by decide) rfl (Or.inr ⟨"x", [], rfl, by decide⟩)⟩

/-- Counterexample to C2 as stated: after `[welcome chA, connect chB]`
every configured channel has left the not-started status, yet the
aggregated ready event has not fired (it fires only from a welcome
trigger or the timer, not from a connect trigger). -/
theorem C2_counterexample :
    (∀ p ∈ (trigRun (initColl [chA, chB]) [.welcome chA, .connect chB]).1.mc_status,
      ¬ p.2 = 0) ∧
    welcomeCount (trigRun (initColl [chA, chB]) [.welcome chA, .connect chB]).2 = 0 := by
  decide

/-- C2 as amended: over every trigger sequence from construction the
ready event fires at most once; a welcome trigger that observes full
readiness fires it and cancels any pending grace timer; delivery of a
pending timer fires it; and a welcome trigger that observes an
unstarted channel schedules the timer if none was ever scheduled.
(The event does not fire at the moment the last channel leaves the
not-started status when that happens via a connect or disconnect
trigger.) -/
theorem C2_welcome_once :
    (∀ (chans : List MChan) (evs : List TrigEvent),
      welcomeCount (trigRun (initColl chans) evs).2 ≤ 1) ∧
    (∀ (s : CollState) (mc : MChan), s.welcomed = false → Good s →
      ((alPut mc 1 s.mc_status).any (fun p => p.2 = 0)) = false →
      welcomeCount (on_welcome_trigger s mc).2 = 1 ∧
      (on_welcome_trigger s mc).1.timer_pending = false) ∧
    (∀ s : CollState, s.timer_pending = true →
      welcomeCount (timer_fire s).2 = 1) ∧
    (∀ (s : CollState) (mc : MChan), s.welcomed = false →
      s.announce_scheduled = false →
      ((alPut mc 1 s.mc_status).any (fun p => p.2 = 0)) = true →
      (on_welcome_trigger s mc).1.timer_pending = true) := by
  refine ⟨?_, ?_, ?_, ?_⟩
  · intro chans evs
    have hg : Good (initColl chans) := by
      intro hp
      simp [initColl] at hp
    have h := (trigRun_welcome evs (initColl chans) hg).2
    have h0 : (if (initColl chans).welcomed then 1 else 0) = 0 := rfl
    rw [h0] at h
    split at h <;> omega
  · intro s mc hw hg hany
    simp only [on_welcome_trigger, on_welcome_setup_finished]
    split
    · next hwt => exact absurd hwt (by simp [hw])
    · split
      · next hanyt =>
        rw [hany] at hanyt
        exact absurd hanyt (by simp)
      · constructor
        · rfl
        · split
          · rfl
          · next hann =>
            cases hp : s.timer_pending with
            | false => rfl
            | true => exact absurd (hg hp).2 (by simp_all)
  · intro s hp
    unfold timer_fire
    rw [if_pos hp]
    rfl
  · intro s mc hw hann hany
    simp only [on_welcome_trigger]
    simp [hw, hann, hany]

/-- Witness for C2 (amended): a pending timer fires the ready event, and
a welcome trigger on the only channel of a fresh collection observes
full readiness and fires it. -/
theorem C2_witness :
    welcomeCount (timer_fire sTimer).2 = 1 ∧
    welcomeCount (on_welcome_trigger (initColl [chA]) chA).2 = 1 :=
  ⟨C2_welcome_once.2.2.1 sTimer (by decide),
   (C2_welcome_once.2.1 (initColl [chA]) chA (by decide)
      (fun hp => absurd hp (by decide)) (by decide)).1⟩

/-- Counterexample to C6 as stated: an order-seen trigger on a channel
that is currently Unavailable (status 2) pins the counterparty to that
channel, so the listed pin-writing operations do not all preserve the
invariant, and a reachable state violates it. -/
theorem C6_counterexample :
    alGet "bob" ((on_order_seen_trigger (on_disconnect_trigger (initColl [chA]) chA).1
      chA "bob" "1" "reloffer" "a" "b" "c" "d").1).active_channels = some chA ∧
    statusOf ((on_order_seen_trigger (on_disconnect_trigger (initColl [chA]) chA).1
      chA "bob" "1" "reloffer" "a" "b" "c" "d").1) chA = 2 := by
  decide

/-- C6 as amended: the invariant "no pinned channel has status 2" is
(re-)established by every disconnect trigger and preserved by connect
and welcome triggers, nick-leave triggers, the `check_privmsg` re-pin of
the decorated sends — and by the order-seen trigger provided the
triggering channel is currently available; an order-seen trigger on a
non-available channel is the one write that can break it. -/
theorem C6_pin_invariant (s : CollState) (mc : MChan) (nick : String)
    (cp oid ot ms mx tf cf : String) (cfg : ProtoConfig) (cmdStr m : String) :
    (pinWF s →
      pinInv (on_disconnect_trigger s mc).1 ∧ pinWF (on_disconnect_trigger s mc).1) ∧
    (pinInv s → pinWF s →
      pinInv (on_connect_trigger s mc) ∧ pinWF (on_connect_trigger s mc)) ∧
    (pinInv s → pinWF s →
      pinInv (on_welcome_trigger s mc).1 ∧ pinWF (on_welcome_trigger s mc).1) ∧
    (pinInv s → pinWF s → mc ∈ available_channels s →
      pinInv (on_order_seen_trigger s mc cp oid ot ms mx tf cf).1 ∧
      pinWF (on_order_seen_trigger s mc cp oid ot ms mx tf cf).1) ∧
    (pinInv s → pinWF s →
      pinInv (on_nick_leave_trigger s nick mc).1 ∧
      pinWF (on_nick_leave_trigger s nick mc).1) ∧
    (pinInv s → pinWF s →
      pinInv (prepare_privmsg cfg s nick cmdStr m none).1 ∧
      pinWF (prepare_privmsg cfg s nick cmdStr m none).1) := by
  refine ⟨fun hwf => on_disconnect_establishes s mc hwf,
    fun hinv hwf => on_connect_preserves s mc hinv hwf,
    fun hinv hwf => on_welcome_preserves s mc hinv hwf,
    fun hinv hwf hmc => on_order_seen_preserves s mc cp oid ot ms mx tf cf hinv hwf hmc,
    fun hinv hwf => on_nick_leave_preserves s nick mc hinv hwf,
    fun hinv hwf => ?_⟩
  exact check_privmsg_preserves s nick
    (fun s2 => (s2, prepare_privmsg_inner cfg s2 nick cmdStr m none))
    (fun _ => rfl) hinv hwf

/-- Witness for C6 (amended): after disconnecting `chA` in the pinned
state `sPin` the invariant holds, and an order-seen on available `chB`
preserves it. -/
theorem C6_witness :
    pinInv (on_disconnect_trigger sPin chA).1 ∧
    pinInv (on_order_seen_trigger sC3 chB "bob" "1" "reloffer" "a" "b" "c" "d").1 :=
  ⟨((C6_pin_invariant sPin chA "bob" "x" "1" "r" "a" "b" "c" "d" cfgEx "fill" "m").1
      (by decide)).1,
   ((C6_pin_invariant sC3 chB "bob" "bob" "1" "reloffer" "a" "b" "c" "d" cfgEx
      "fill" "m").2.2.2.1 (by decide) (by decide) (by decide)).1⟩

/-- C1: evaluation at the failing inputs.  `fill_orders` with a nick
absent from `active_channels` hits `self.active_channels[k]` inside the
dict comprehension and raises `KeyError` (here `Except.error`) whenever
at least one channel is available; the collection's
`on_verified_privmsg` with a hostid matching no channel evaluates
`matched_channels[0]` on an empty list and raises `IndexError`,
immediately after logging that it will continue processing; `send_tx`
with a missing nick really does return without raising (no sends). -/
theorem C1_exceptions :
    mcc_fill_orders sC1 [("bob", "1")] "100" "pk" "com" = .error () ∧
    mcc_on_verified_privmsg sC1 cfgEx "bob" "!x p s" "nohost" = .error () ∧
    mcc_send_tx cfgEx sC1 ["bob"] "t" = (sC1, []) := by
  exact ⟨rfl, rfl, rfl⟩

end JMMC
